import Mathlib

/-!
Shallow embedding of `src/life.py`: Conway's Game of Life on a toroidal
grid, together with the pattern text codec and the pattern applier.

A board is a list of rows, each row a list of cells; a cell is the Python
int `0` (dead) or `1` (alive).  Text is modelled line by line, a line being
its list of characters (the file I/O itself, `open`/`write`/`read`, is out
of scope: `save_pattern` produces the list of lines it writes and
`load_patterns` consumes the list of lines it would read).
-/

/-- A board: a list of rows of 0/1 cells, exactly the Python
list-of-lists representation. -/
abbrev Board := List (List Nat)

/-- A line of text, as its list of characters. -/
abbrev Line := List Char

/-- Reading `board[x][y]`.  Out-of-range reads default to `0`; the Python
code only ever indexes in range, where both agree. -/
def cell (b : Board) (x y : Nat) : Nat := (b.getD x []).getD y 0

/-- Writing `board[x][y] = v` (a no-op out of range, as `List.set` is;
the Python code only writes in range, where both agree). -/
def setCell (b : Board) (x y v : Nat) : Board := b.set x ((b.getD x []).set y v)

/-- `make_board(width, height)`: a height x width board of dead cells.
`range(n)` is empty for non-positive `n`, which `Int.toNat` reproduces.
The Python function performs no validation and cannot raise. -/
def make_board (width height : Int) : Board :=
  List.replicate height.toNat (List.replicate width.toNat 0)

/-- `count_neighbors(board, x, y)`: sum of the 8 toroidally wrapped
neighbour cells.  Python `%` on a positive modulus agrees with
`Int.emod` (both return a representative in `[0, H)`). -/
def count_neighbors (b : Board) (x y : Int) : Nat :=
  let H : Int := (b.length : Int)
  let W : Int := ((b.headD []).length : Int)
  (([-1, 0, 1] : List Int).map (fun dx =>
    (([-1, 0, 1] : List Int).map (fun dy =>
      if dx = 0 ∧ dy = 0 then 0
      else cell b ((x + dx).emod H).toNat ((y + dy).emod W).toNat)).sum)).sum

/-- The body of the `next_gen` double loop for one cell `(i, j)`:
`neighbors` is computed from `board`, the conditions read `board[i][j]`,
and the only write goes to `new_board[i][j]`. -/
def next_gen_step (board nb : Board) (i j : Nat) : Board :=
  let neighbors := count_neighbors board (i : Int) (j : Int)
  if cell board i j = 1 ∧ (neighbors = 2 ∨ neighbors = 3) then setCell nb i j 1
  else if cell board i j = 0 ∧ neighbors = 3 then setCell nb i j 1
  else nb

/-- `next_gen(board)` with its mutable store made explicit: the state is
the pair of the Python variables `(board, new_board)`.  Each loop
iteration reads the `board` component and writes the `new_board`
component, exactly as the source's loop body does. -/
def next_gen_state (board : Board) : Board × Board :=
  let H := board.length
  let W := (board.headD []).length
  (List.range H).foldl (fun st i =>
    (List.range W).foldl (fun st' j => (st'.1, next_gen_step st'.1 st'.2 i j)) st)
    (board, make_board (W : Int) (H : Int))

/-- `next_gen(board)`: the function returns `new_board`. -/
def next_gen (board : Board) : Board := (next_gen_state board).2

/-- The per-cell transition value of the source's rule, as a pure
function of the input board only (1 exactly when the loop body would
write a 1, else the 0 left in place by `make_board`). -/
def life_rule (b : Board) (i j : Nat) : Nat :=
  let neighbors := count_neighbors b (i : Int) (j : Int)
  if cell b i j = 1 ∧ (neighbors = 2 ∨ neighbors = 3) then 1
  else if cell b i j = 0 ∧ neighbors = 3 then 1
  else 0

/-- The next generation computed cell by cell from the input snapshot
alone: cell `(i, j)` of the result is `life_rule b i j`, a function of
`b` only. -/
def snapshot_next (b : Board) : Board :=
  (List.range b.length).map (fun i =>
    (List.range (b.headD []).length).map (fun j => life_rule b i j))

/-- `apply_pattern(board, coords)`: a fresh blank board of the same
dimensions, with every in-bounds coordinate of `coords` set alive;
out-of-bounds coordinates are skipped by the bounds test. -/
def apply_pattern (b : Board) (coords : List (Int × Int)) : Board :=
  let H := b.length
  let W := (b.headD []).length
  coords.foldl (fun nb p =>
    if 0 ≤ p.1 ∧ p.1 < (H : Int) ∧ 0 ≤ p.2 ∧ p.2 < (W : Int) then
      setCell nb p.1.toNat p.2.toNat 1
    else nb) (make_board (W : Int) (H : Int))

/-- The loop body of `apply_pattern`: one `for i, j in coords` iteration,
writing only when `0 <= i < H and 0 <= j < W`. -/
def applyStep (H W : Nat) (nb : Board) (p : Int × Int) : Board :=
  if 0 ≤ p.1 ∧ p.1 < (H : Int) ∧ 0 ≤ p.2 ∧ p.2 < (W : Int) then
    setCell nb p.1.toNat p.2.toNat 1
  else nb

/-- The 8 neighbour offsets `(dx, dy)` with `dx, dy ∈ {-1, 0, 1}`,
`(0, 0)` excluded. -/
def neighborOffsets : List (Int × Int) :=
  [(-1, -1), (-1, 0), (-1, 1), (0, -1), (0, 1), (1, -1), (1, 0), (1, 1)]

/-- The number of alive cells of `b` among the 8 toroidal positions
`((x+dx) mod H, (y+dy) mod W)`, `(dx, dy)` ranging over the 8 offsets:
the neighbour count as the specification words it. -/
def alive_neighbor_count (b : Board) (x y : Int) : Nat :=
  let H : Int := (b.length : Int)
  let W : Int := ((b.headD []).length : Int)
  neighborOffsets.countP (fun d =>
    decide (cell b ((x + d.1).emod H).toNat ((y + d.2).emod W).toNat = 1))

/-! ### Text primitives (Python string operations on `Line`) -/

/-- The whitespace characters stripped by Python `str.strip()` (of those,
only the ASCII ones the code can meet in this format). -/
def isWS (c : Char) : Bool := c == ' ' || c == '\t' || c == '\n' || c == '\r'

/-- Python `line.strip()`: drop whitespace from both ends. -/
def stripChars (l : Line) : Line :=
  ((l.dropWhile isWS).reverse.dropWhile isWS).reverse

/-- Python `line.startswith(tag)`. -/
def startsWithTag : Line → Line → Bool
  | [], _ => true
  | _ :: _, [] => false
  | c :: cs, d :: ds => c == d && startsWithTag cs ds

/-- Python `line.split(sep)` for a one-character separator: split on every
occurrence, keeping empty pieces (`"".split(",") == [""]`). -/
def splitChar (sep : Char) (l : Line) : List Line :=
  l.foldr (fun c acc =>
    if c = sep then [] :: acc
    else match acc with
      | h :: t => (c :: h) :: t
      | [] => [[c]]) [[]]

/-- Python `line.split(":", 1)[1]`: everything after the first colon (the
caller has checked the line starts with `"# Pattern:"`, so a colon is
present). -/
def afterColon (l : Line) : Line := (l.dropWhile (fun c => c != ':')).tail

/-- Decimal-digit accumulation of Python `int()`: consume digits, allowing
a single underscore between two digits (as Python literals do), starting
from an already-read accumulator. -/
def pyDigitsCore (acc : Nat) : Line → Option Nat
  | [] => some acc
  | [c] => if c.isDigit then some (acc * 10 + (c.toNat - 48)) else none
  | c :: d :: cs =>
    if c.isDigit then pyDigitsCore (acc * 10 + (c.toNat - 48)) (d :: cs)
    else if c = '_' then
      (if d.isDigit then pyDigitsCore (acc * 10 + (d.toNat - 48)) cs else none)
    else none

/-- Parse a non-empty unsigned digit string (first character must be a
digit, as Python `int()` requires). -/
def pyNatCore : Line → Option Nat
  | [] => none
  | c :: cs => if c.isDigit then pyDigitsCore (c.toNat - 48) cs else none

/-- Python `int(s)`: strip whitespace, optional sign, then digits;
`none` models the `ValueError` the surrounding code catches. -/
def pyInt (l : Line) : Option Int :=
  match stripChars l with
  | [] => none
  | c :: rest =>
    if c = '-' then (pyNatCore rest).map (fun n => -(n : Int))
    else if c = '+' then (pyNatCore rest).map (fun n => (n : Int))
    else (pyNatCore (c :: rest)).map (fun n => (n : Int))

/-- Python `i, j = map(int, line.split(","))`: succeeds exactly when the
line splits into two comma-separated pieces and both parse as integers;
any other shape raises the `ValueError` the caller catches. -/
def parseCoord (line : Line) : Option (Int × Int) :=
  match splitChar ',' line with
  | [a, b] =>
    match pyInt a, pyInt b with
    | some i, some j => some (i, j)
    | _, _ => none
  | _ => none

/-! ### Decimal rendering (Python f-string `f"{i},{j}"`) -/

/-- One decimal digit character (`48 = '0'`). -/
def digitChar (d : Nat) : Char := Char.ofNat (48 + d)

/-- Decimal digits of `n`, most significant first, with explicit fuel so
that the definition is structurally recursive (and kernel-reducible). -/
def natDigitsF : Nat → Nat → Line
  | 0, _ => []
  | fuel + 1, n =>
    if n < 10 then [digitChar n]
    else natDigitsF fuel (n / 10) ++ [digitChar (n % 10)]

/-- Decimal rendering of a natural number, `f"{n}"`. -/
def natDigits (n : Nat) : Line := natDigitsF (n + 1) n

/-- The line `f"{i},{j}"` written for one alive cell. -/
def coordLine (i j : Nat) : Line := natDigits i ++ ',' :: natDigits j

/-- The header tag tested by `line.startswith("# Pattern:")`. -/
def headerTag : Line := "# Pattern:".toList

/-- The header line `save_pattern` always writes. -/
def headerSaved : Line := "# Pattern: Saved".toList

/-- The alive cells of a board in the scan order of `save_pattern`'s
nested loop: rows top to bottom, columns left to right. -/
def alive_list (b : Board) : List (Nat × Nat) :=
  (List.range b.length).flatMap (fun i =>
    (List.range ((b.getD i []).length)).filterMap (fun j =>
      if cell b i j = 1 then some (i, j) else none))

/-- `save_pattern(board, filename)` as the list of lines it writes: the
fixed header `"# Pattern: Saved"` and then one `f"{i},{j}"` line per
alive cell, in the nested loop's scan order. -/
def save_pattern (b : Board) : List Line :=
  headerSaved :: (alive_list b).map (fun p => coordLine p.1 p.2)

/-! ### The `load_patterns` parser -/

/-- The local variables of `load_patterns`'s loop: the `patterns` dict (as
an insertion-ordered association list), `current_name` (`None` or a
string) and the accumulated `coords`. -/
structure LoadState where
  patterns : List (Line × List (Int × Int))
  currentName : Option Line
  coords : List (Int × Int)
deriving DecidableEq

/-- Python truthiness of `current_name`: `None` and the empty string are
falsy, every other string truthy. -/
def truthyName : Option Line → Bool
  | none => false
  | some s => !s.isEmpty

/-- Python `patterns[name] = coords` on an insertion-ordered dict:
replace in place if the key exists, else append. -/
def dictInsert : List (Line × List (Int × Int)) → Line → List (Int × Int) →
    List (Line × List (Int × Int))
  | [], k, v => [(k, v)]
  | (k', v') :: rest, k, v =>
    if k' = k then (k, v) :: rest else (k', v') :: dictInsert rest k v

/-- One iteration of the `for line in f` loop of `load_patterns`. -/
def load_step (st : LoadState) (raw : Line) : LoadState :=
  let line := stripChars raw
  if line.isEmpty then st
  else if startsWithTag headerTag line then
    let flushed :=
      if truthyName st.currentName && !st.coords.isEmpty then
        dictInsert st.patterns (st.currentName.getD []) st.coords
      else st.patterns
    ⟨flushed, some (stripChars (afterColon line)), []⟩
  else
    match parseCoord line with
    | some p => ⟨st.patterns, st.currentName, st.coords ++ [p]⟩
    | none => st

/-- `load_patterns` on the lines of the file: run the loop, then flush the
last block under the same `if current_name and coords` guard.  (The
`FileNotFoundError` branch is file I/O and out of this model: the input
here is the list of lines actually read.) -/
def load_patterns (ls : List Line) : List (Line × List (Int × Int)) :=
  let st := ls.foldl load_step ⟨[], none, []⟩
  if truthyName st.currentName && !st.coords.isEmpty then
    dictInsert st.patterns (st.currentName.getD []) st.coords
  else st.patterns

/-! ### Spec-side definitions, for comparison with the code -/

/-- Modelled from the spec: the error taxonomy's `InvalidDimension`. -/
inductive CreateError where
  | invalidDimension
deriving DecidableEq

/-- Modelled from the spec: `create(width, height)` "returns a Grid with
all cells dead.  Fails with `InvalidDimension` if width ≤ 0 or
height ≤ 0."  Written from the spec's words, to be compared with the
source's `make_board`. -/
def createSpec (width height : Int) : Except CreateError Board :=
  if width ≤ 0 ∨ height ≤ 0 then Except.error CreateError.invalidDimension
  else Except.ok (List.replicate height.toNat (List.replicate width.toNat 0))

/-- Modelled from the spec: a header line naming a given pattern,
`"# Pattern: <name>"`.  Written from the spec's words, to be compared
with the header the source actually writes. -/
def headerFor (name : Line) : Line := "# Pattern: ".toList ++ name

/-- Row-major scan order on cell coordinates: earlier row, or same row
and earlier column. -/
def scanOrderLt (p q : Nat × Nat) : Prop := p.1 < q.1 ∨ (p.1 = q.1 ∧ p.2 < q.2)

/-! ### The imperative double loop of `next_gen` equals the snapshot map -/

/-- A fold whose step only rewrites the second component leaves the first
component alone. -/
theorem foldl_pair_general {γ : Type} (f : Board → Board → γ → Board) (l : List γ) :
    ∀ (x y : Board), l.foldl (fun st c => (st.1, f st.1 st.2 c)) (x, y) = (x, l.foldl (f x) y) := by
  induction l with
  | nil => intro x y; rfl
  | cons c l ih => intro x y; simpa using ih x (f x y c)

/-- The nested pair-threading fold of `next_gen_state` keeps the input
board fixed and folds the write steps over the second component only. -/
theorem foldl_pair_nested {γ δ : Type} (g : Board → Board → γ → δ → Board)
    (inner : γ → List δ) (l : List γ) :
    ∀ (x y : Board),
      l.foldl (fun st i => (inner i).foldl (fun st' j => (st'.1, g st'.1 st'.2 i j)) st) (x, y)
      = (x, l.foldl (fun nb i => (inner i).foldl (fun nb' j => g x nb' i j) nb) y) := by
  induction l with
  | nil => intro x y; rfl
  | cons i l ih =>
    intro x y
    simp only [List.foldl_cons]
    rw [foldl_pair_general (fun bd s j => g bd s i j) (inner i) x y]
    exact ih x _

theorem next_gen_step_eq (b nb : Board) (i j : Nat) :
    next_gen_step b nb i j = if life_rule b i j = 1 then setCell nb i j 1 else nb := by
  by_cases h1 : cell b i j = 1 ∧ (count_neighbors b (i : Int) (j : Int) = 2 ∨
      count_neighbors b (i : Int) (j : Int) = 3)
  · simp [next_gen_step, life_rule, h1]
  · by_cases h2 : cell b i j = 0 ∧ count_neighbors b (i : Int) (j : Int) = 3 <;>
      simp [next_gen_step, life_rule, h1, h2]

theorem getD_set_self (l : Board) (i : Nat) (r : List Nat) :
    (l.set i r).getD i [] = if i < l.length then r else [] := by
  rw [List.getD_eq_getElem?_getD, List.getElem?_set, if_pos rfl]
  by_cases h : i < l.length
  · simp [h]
  · simp [h, List.getElem?_eq_none (by omega : l.length ≤ i)]

theorem set_getD_cancel (l : Board) (i : Nat) :
    l.set i (l.getD i []) = l := by
  apply List.ext_getElem?
  intro n
  rw [List.getElem?_set]
  split
  · next h =>
    subst h
    split
    · next h' => simp [List.getD_eq_getElem?_getD, List.getElem?_eq_getElem h']
    · next h' => exact (List.getElem?_eq_none (by omega)).symm
  · rfl

/-- Extracting the row being written: a fold of conditional writes into
row `i` of a board is the board with row `i` replaced by the
corresponding fold of conditional writes on that row. -/
theorem foldl_setCell_row (c : Nat → Prop) [DecidablePred c] (i : Nat) :
    ∀ (l : List Nat) (nb : Board),
    l.foldl (fun s j => if c j then setCell s i j 1 else s) nb
    = nb.set i (l.foldl (fun r j => if c j then r.set j 1 else r) (nb.getD i [])) := by
  intro l
  induction l with
  | nil => intro nb; exact (set_getD_cancel nb i).symm
  | cons j l ih =>
    intro nb
    simp only [List.foldl_cons]
    by_cases hc : c j
    · simp only [if_pos hc]
      rw [ih (setCell nb i j 1)]
      unfold setCell
      by_cases hlen : i < nb.length
      · rw [getD_set_self, if_pos hlen, List.set_set]
      · have h1 : nb.set i ((nb.getD i []).set j 1) = nb :=
          List.set_eq_of_length_le (by omega)
        have h2 : nb.getD i [] = [] := by
          simp [List.getD_eq_getElem?_getD, List.getElem?_eq_none (by omega : nb.length ≤ i)]
        rw [h1, h2]
        rfl
    · simp only [if_neg hc]
      exact ih nb

/-- Pointwise description of a fold of conditional writes along a row. -/
theorem foldl_set_row_getElem? (c : Nat → Prop) [DecidablePred c] :
    ∀ (n a : Nat) (r : List Nat) (k : Nat),
    ((List.range' a n).foldl (fun s j => if c j then s.set j 1 else s) r)[k]?
    = if a ≤ k ∧ k < a + n ∧ c k then (if k < r.length then some 1 else none) else r[k]? := by
  intro n
  induction n with
  | zero =>
    intro a r k
    simp only [List.range', List.foldl_nil]
    split
    · next h => omega
    · rfl
  | succ n ih =>
    intro a r k
    rw [List.range'_succ, List.foldl_cons]
    by_cases hca : c a
    · rw [if_pos hca, ih]
      by_cases hk : k = a
      · subst hk
        have h1 : ¬ (k + 1 ≤ k ∧ k < k + 1 + n ∧ c k) := by omega
        rw [if_neg h1, List.getElem?_set, if_pos rfl,
          if_pos (And.intro le_rfl (And.intro (by omega) hca))]
      · have h2 : (a + 1 ≤ k ∧ k < a + 1 + n ∧ c k) ↔ (a ≤ k ∧ k < a + (n + 1) ∧ c k) := by
          constructor
          · rintro ⟨u, v, w⟩; exact ⟨by omega, by omega, w⟩
          · rintro ⟨u, v, w⟩; exact ⟨by omega, by omega, w⟩
        rw [List.length_set, if_congr h2 rfl rfl]
        have h3 : (r.set a 1)[k]? = r[k]? := by
          rw [List.getElem?_set, if_neg (by omega)]
        rw [h3]
    · rw [if_neg hca, ih]
      have h2 : (a + 1 ≤ k ∧ k < a + 1 + n ∧ c k) ↔ (a ≤ k ∧ k < a + (n + 1) ∧ c k) := by
        constructor
        · rintro ⟨u, v, w⟩; exact ⟨by omega, by omega, w⟩
        · rintro ⟨u, v, w⟩
          have hne : k ≠ a := fun h => hca (h ▸ w)
          exact ⟨by omega, by omega, w⟩
      rw [if_congr h2 rfl rfl]

/-- Filling each row by conditional writes of ones, starting from an
all-zero row, yields the row of rule values (for a rule bounded by 1). -/
theorem row_fill_map (f : Nat → Nat) (hf : ∀ j, f j ≤ 1) (W : Nat) :
    (List.range W).foldl (fun r j => if f j = 1 then r.set j 1 else r) (List.replicate W 0)
    = (List.range W).map f := by
  apply List.ext_getElem?
  intro k
  rw [List.range_eq_range', foldl_set_row_getElem? (c := fun j => f j = 1)]
  rw [List.length_replicate, List.getElem?_replicate, List.getElem?_map]
  by_cases hk : k < W
  · rw [← List.range_eq_range', List.getElem?_range hk]
    by_cases hfk : f k = 1
    · rw [if_pos ⟨by omega, by omega, hfk⟩, if_pos hk]
      simp [hfk]
    · have : f k = 0 := by have := hf k; omega
      rw [if_neg (by tauto), if_pos hk]
      simp [this]
  · rw [if_neg (by omega), if_neg hk, ← List.range_eq_range',
      List.getElem?_eq_none (by simpa using by omega : (List.range W).length ≤ k)]
    rfl

/-- Pointwise description of a fold that replaces each row in turn by a
function of that row's current value. -/
theorem foldl_set_rows_getElem? (g : Nat → List Nat → List Nat) :
    ∀ (n a : Nat) (nb : Board) (k : Nat),
    ((List.range' a n).foldl (fun s i => s.set i (g i (s.getD i []))) nb)[k]?
    = if a ≤ k ∧ k < a + n ∧ k < nb.length then some (g k (nb.getD k [])) else nb[k]? := by
  intro n
  induction n with
  | zero =>
    intro a nb k
    simp only [List.range', List.foldl_nil]
    rw [if_neg (by omega)]
  | succ n ih =>
    intro a nb k
    rw [List.range'_succ, List.foldl_cons, ih]
    by_cases hk : k = a
    · subst hk
      rw [if_neg (by omega), List.getElem?_set, if_pos rfl]
      by_cases hlen : k < nb.length
      · rw [if_pos hlen, if_pos ⟨le_rfl, by omega, hlen⟩]
      · rw [if_neg hlen, if_neg (by tauto),
          List.getElem?_eq_none (by omega : nb.length ≤ k)]
    · have hlen : (nb.set a (g a (nb.getD a []))).length = nb.length := List.length_set ..
      have hgd : (nb.set a (g a (nb.getD a []))).getD k [] = nb.getD k [] := by
        rw [List.getD_eq_getElem?_getD, List.getElem?_set, if_neg (by omega),
          List.getD_eq_getElem?_getD]
      have hge : (nb.set a (g a (nb.getD a [])))[k]? = nb[k]? := by
        rw [List.getElem?_set, if_neg (by omega)]
      rw [hlen, hgd, hge]
      have h2 : (a + 1 ≤ k ∧ k < a + 1 + n ∧ k < nb.length)
          ↔ (a ≤ k ∧ k < a + (n + 1) ∧ k < nb.length) := by omega
      rw [if_congr h2 rfl rfl]

theorem life_rule_le_one (b : Board) (i j : Nat) : life_rule b i j ≤ 1 := by
  simp only [life_rule]
  split
  · exact le_rfl
  · split
    · exact le_rfl
    · exact Nat.zero_le 1

/-- The central lemma: running the source's double loop leaves the input
board untouched and produces exactly the snapshot-computed next
generation in `new_board`. -/
theorem next_gen_state_spec (b : Board) :
    next_gen_state b = (b, snapshot_next b) := by
  unfold next_gen_state
  rw [foldl_pair_nested (fun bd nb i j => next_gen_step bd nb i j)
    (fun _ => List.range ((b.headD []).length)) (List.range b.length) b
    (make_board (((b.headD []).length : Nat) : Int) ((b.length : Nat) : Int))]
  refine congrArg _ ?_
  simp only [next_gen_step_eq]
  have hrow : (fun (nb : Board) (i : Nat) =>
      (List.range ((b.headD []).length)).foldl
        (fun nb' j => if life_rule b i j = 1 then setCell nb' i j 1 else nb') nb)
      = fun nb i => nb.set i ((List.range ((b.headD []).length)).foldl
        (fun r j => if life_rule b i j = 1 then r.set j 1 else r) (nb.getD i [])) := by
    funext nb i
    exact foldl_setCell_row (fun j => life_rule b i j = 1) i _ nb
  rw [hrow]
  apply List.ext_getElem?
  intro k
  rw [List.range_eq_range' (b.length),
    foldl_set_rows_getElem? (fun i r => (List.range ((b.headD []).length)).foldl
      (fun r' j => if life_rule b i j = 1 then r'.set j 1 else r') r)]
  unfold make_board snapshot_next
  rw [List.length_replicate, Int.toNat_natCast, Int.toNat_natCast, List.getElem?_map]
  by_cases hk : k < b.length
  · rw [if_pos ⟨by omega, by omega, hk⟩, List.getElem?_range hk]
    have hgd : (List.replicate b.length (List.replicate ((b.headD []).length) 0)).getD k []
        = List.replicate ((b.headD []).length) 0 := by
      rw [List.getD_eq_getElem?_getD, List.getElem?_replicate, if_pos hk]
      rfl
    rw [hgd, row_fill_map (life_rule b k) (life_rule_le_one b k)]
    rfl
  · rw [if_neg (by omega), List.getElem?_replicate, if_neg hk,
      List.getElem?_eq_none (by simpa using by omega : (List.range b.length).length ≤ k)]
    rfl

theorem next_gen_fst (b : Board) : (next_gen_state b).1 = b := by
  rw [next_gen_state_spec]

theorem next_gen_eq_snapshot (b : Board) : next_gen b = snapshot_next b := by
  unfold next_gen
  rw [next_gen_state_spec]

theorem cell_snapshot_next (b : Board) (i j : Nat) (hi : i < b.length)
    (hj : j < (b.headD []).length) :
    cell (snapshot_next b) i j = life_rule b i j := by
  unfold cell snapshot_next
  simp only [List.getD_eq_getElem?_getD, List.getElem?_map, List.getElem?_range hi,
    List.getElem?_range hj, Option.map_some', Option.getD_some]

theorem snapshot_next_length (b : Board) : (snapshot_next b).length = b.length := by
  simp [snapshot_next]

theorem snapshot_next_rows (b : Board) :
    ∀ row ∈ snapshot_next b, row.length = (b.headD []).length := by
  intro row hrow
  unfold snapshot_next at hrow
  obtain ⟨i, _, rfl⟩ := List.mem_map.mp hrow
  simp

theorem cell_le_one (b : Board) (hb : ∀ row ∈ b, ∀ c ∈ row, c ≤ 1) (x y : Nat) :
    cell b x y ≤ 1 := by
  unfold cell
  simp only [List.getD_eq_getElem?_getD]
  cases hrow : b[x]? with
  | none => simp
  | some row =>
    simp only [Option.getD_some]
    cases hc : row[y]? with
    | none => simp
    | some c =>
      simp only [Option.getD_some]
      exact hb row (List.getElem?_mem hrow) c (List.getElem?_mem hc)

/-- On a 0/1 board the source's neighbour sum is exactly the number of
alive cells among the 8 toroidal neighbour positions. -/
theorem count_neighbors_eq_alive (b : Board) (hb : ∀ row ∈ b, ∀ c ∈ row, c ≤ 1)
    (x y : Int) : count_neighbors b x y = alive_neighbor_count b x y := by
  have hc : ∀ u v : Nat, (if cell b u v = 1 then 1 else 0) = cell b u v := by
    intro u v
    have h := cell_le_one b hb u v
    interval_cases h : cell b u v <;> simp
  simp only [count_neighbors, alive_neighbor_count, neighborOffsets,
    List.map_cons, List.map_nil, List.sum_cons, List.sum_nil,
    List.countP_cons, List.countP_nil, decide_eq_true_eq]
  norm_num
  rw [hc, hc, hc, hc, hc, hc, hc, hc]
  omega

/-- Claim C1: for every grid with positive dimensions HxW and every cell
`(i, j)`, the cell is alive in `next_gen g` iff either it is alive in `g`
with 2 or 3 alive neighbours, or dead in `g` with exactly 3 alive
neighbours, the neighbour count being the number of alive cells among
the 8 toroidal positions `((i+dx) mod H, (j+dy) mod W)`, `(dx, dy)` in
`{-1,0,1}^2` minus `(0,0)`, with no special treatment of edges or
corners. -/
theorem next_gen_cell_rule (g : Board) (i j : Nat)
    (hH : 0 < g.length) (hW : 0 < (g.headD []).length)
    (hrect : ∀ row ∈ g, row.length = (g.headD []).length)
    (hbin : ∀ row ∈ g, ∀ c ∈ row, c ≤ 1)
    (hi : i < g.length) (hj : j < (g.headD []).length) :
    cell (next_gen g) i j = 1 ↔
      ((cell g i j = 1 ∧ (alive_neighbor_count g i j = 2 ∨ alive_neighbor_count g i j = 3))
        ∨ (cell g i j = 0 ∧ alive_neighbor_count g i j = 3)) := by
  rw [next_gen_eq_snapshot, cell_snapshot_next g i j hi hj]
  have hcnt := count_neighbors_eq_alive g hbin (i : Int) (j : Int)
  simp only [life_rule, hcnt]
  split
  · next h => simp only [h]; tauto
  · next h =>
    split
    · next h2 => simp only [h2]; tauto
    · next h2 =>
      constructor
      · intro h0; exact absurd h0 (by omega)
      · intro hdisj; exact absurd hdisj (by tauto)

theorem next_gen_cell_rule_witness :
    (0 < ([[0,1,0],[0,1,0],[0,1,0]] : Board).length) ∧
    (cell (next_gen [[0,1,0],[0,1,0],[0,1,0]]) 1 1 = 1 ↔
      ((cell [[0,1,0],[0,1,0],[0,1,0]] 1 1 = 1 ∧
        (alive_neighbor_count [[0,1,0],[0,1,0],[0,1,0]] 1 1 = 2 ∨
         alive_neighbor_count [[0,1,0],[0,1,0],[0,1,0]] 1 1 = 3))
        ∨ (cell [[0,1,0],[0,1,0],[0,1,0]] 1 1 = 0 ∧
           alive_neighbor_count [[0,1,0],[0,1,0],[0,1,0]] 1 1 = 3))) :=
  ⟨by decide, next_gen_cell_rule [[0,1,0],[0,1,0],[0,1,0]] 1 1 (by decide) (by decide)
    (by decide) (by decide) (by decide) (by decide)⟩

/-- Claim C2: `next_gen` is pure: the `board` component of the loop state
is the unchanged input when the loop finishes (the function never writes
to it), and the returned `new_board` is exactly `snapshot_next g`, whose
every cell is the rule applied to the input snapshot `g` alone, so no
decision ever sees an already-updated cell of the generation being
built. -/
theorem next_gen_pure (g : Board) :
    (next_gen_state g).1 = g ∧ next_gen g = snapshot_next g :=
  ⟨next_gen_fst g, next_gen_eq_snapshot g⟩

/-- Claim C3: for every grid with positive dimensions, `next_gen g` has
the same height and the same width as `g`. -/
theorem next_gen_dims (g : Board) (hH : 0 < g.length)
    (hW : 0 < (g.headD []).length) :
    (next_gen g).length = g.length ∧
      ∀ row ∈ next_gen g, row.length = (g.headD []).length := by
  rw [next_gen_eq_snapshot]
  exact ⟨snapshot_next_length g, snapshot_next_rows g⟩

theorem next_gen_dims_witness :
    0 < ([[1,0],[0,1],[1,1]] : Board).length ∧
      (next_gen [[1,0],[0,1],[1,1]]).length = ([[1,0],[0,1],[1,1]] : Board).length :=
  ⟨by decide, (next_gen_dims [[1,0],[0,1],[1,1]] (by decide) (by decide)).1⟩

/-! ### `apply_pattern` -/

theorem apply_pattern_eq_fold (b : Board) (coords : List (Int × Int)) :
    apply_pattern b coords
    = coords.foldl (applyStep b.length ((b.headD []).length))
        (make_board (((b.headD []).length : Nat) : Int) ((b.length : Nat) : Int)) := rfl

theorem getD_out_of_range (l : Board) (i : Nat) (h : l.length ≤ i) :
    l.getD i [] = [] := by
  rw [List.getD_eq_getElem?_getD, List.getElem?_eq_none h]
  rfl

theorem setCell_length (nb : Board) (x y v : Nat) :
    (setCell nb x y v).length = nb.length := List.length_set ..

theorem setCell_getD_length (nb : Board) (x y v i : Nat) :
    ((setCell nb x y v).getD i []).length = (nb.getD i []).length := by
  unfold setCell
  by_cases hx : x = i
  · subst hx
    rw [getD_set_self]
    by_cases hlt : x < nb.length
    · rw [if_pos hlt, List.length_set]
    · rw [if_neg hlt, getD_out_of_range nb x (by omega)]
  · rw [List.getD_eq_getElem?_getD, List.getElem?_set, if_neg hx,
      ← List.getD_eq_getElem?_getD]

theorem cell_setCell (nb : Board) (x y : Nat) (hx : x < nb.length)
    (hy : y < (nb.getD x []).length) (i j : Nat) :
    cell (setCell nb x y 1) i j = if i = x ∧ j = y then 1 else cell nb i j := by
  unfold cell setCell
  by_cases hix : i = x
  · subst hix
    rw [getD_set_self, if_pos hx, List.getD_eq_getElem?_getD, List.getElem?_set]
    by_cases hjy : j = y
    · subst hjy
      rw [if_pos rfl, if_pos hy]
      simp
    · rw [if_neg (fun h => hjy h.symm), ← List.getD_eq_getElem?_getD,
        if_neg (fun h => hjy h.2)]
  · rw [List.getD_eq_getElem?_getD (nb.set x _), List.getElem?_set,
      if_neg (fun h => hix h.symm), ← List.getD_eq_getElem?_getD,
      if_neg (fun h => hix h.1)]

theorem apply_fold_shape (H W : Nat) (coords : List (Int × Int)) :
    ∀ nb : Board, nb.length = H → (∀ i, i < H → (nb.getD i []).length = W) →
      (coords.foldl (applyStep H W) nb).length = H ∧
      (∀ i, i < H → ((coords.foldl (applyStep H W) nb).getD i []).length = W) := by
  induction coords with
  | nil => intro nb h1 h2; exact ⟨h1, h2⟩
  | cons p rest ih =>
    intro nb h1 h2
    rw [List.foldl_cons]
    apply ih
    · unfold applyStep
      split
      · rw [setCell_length, h1]
      · exact h1
    · intro i hi
      unfold applyStep
      split
      · rw [setCell_getD_length]; exact h2 i hi
      · exact h2 i hi

theorem apply_fold_cell (H W : Nat) (coords : List (Int × Int)) :
    ∀ nb : Board, nb.length = H → (∀ i, i < H → (nb.getD i []).length = W) →
      ∀ i j : Nat,
      (cell (coords.foldl (applyStep H W) nb) i j = 1 ↔
        ((i < H ∧ j < W ∧ ((i : Int), (j : Int)) ∈ coords) ∨ cell nb i j = 1)) := by
  induction coords with
  | nil =>
    intro nb h1 h2 i j
    simp
  | cons p rest ih =>
    intro nb h1 h2 i j
    rw [List.foldl_cons]
    by_cases hp : 0 ≤ p.1 ∧ p.1 < (H : Int) ∧ 0 ≤ p.2 ∧ p.2 < (W : Int)
    · have hstep : applyStep H W nb p = setCell nb p.1.toNat p.2.toNat 1 := by
        unfold applyStep; rw [if_pos hp]
      have hx : p.1.toNat < nb.length := by rw [h1]; omega
      have hy : p.2.toNat < (nb.getD p.1.toNat []).length := by
        rw [h2 p.1.toNat (by omega)]; omega
      rw [hstep, ih (setCell nb p.1.toNat p.2.toNat 1)
        (by rw [setCell_length, h1])
        (fun i hi => by rw [setCell_getD_length]; exact h2 i hi) i j,
        cell_setCell nb p.1.toNat p.2.toNat hx hy i j]
      by_cases hij : i = p.1.toNat ∧ j = p.2.toNat
      · have hpe : ((i : Int), (j : Int)) = p := by
          obtain ⟨e1, e2⟩ := hij
          have : (i : Int) = p.1 := by omega
          have : (j : Int) = p.2 := by omega
          exact Prod.ext (by omega) (by omega)
        have hiH : i < H := by omega
        have hjW : j < W := by omega
        rw [if_pos hij]
        simp [hpe, hiH, hjW, List.mem_cons]
      · rw [if_neg hij]
        simp only [List.mem_cons]
        constructor
        · rintro (⟨u1, u2, u3⟩ | u4)
          · exact Or.inl ⟨u1, u2, Or.inr u3⟩
          · exact Or.inr u4
        · rintro (⟨u1, u2, (he | u3)⟩ | u4)
          · exfalso
            apply hij
            have e1 : (i : Int) = p.1 := congrArg Prod.fst he
            have e2 : (j : Int) = p.2 := congrArg Prod.snd he
            constructor <;> omega
          · exact Or.inl ⟨u1, u2, u3⟩
          · exact Or.inr u4
    · have hstep : applyStep H W nb p = nb := by
        unfold applyStep; rw [if_neg hp]
      rw [hstep, ih nb h1 h2 i j]
      simp only [List.mem_cons]
      constructor
      · rintro (⟨u1, u2, u3⟩ | u4)
        · exact Or.inl ⟨u1, u2, Or.inr u3⟩
        · exact Or.inr u4
      · rintro (⟨u1, u2, (he | u3)⟩ | u4)
        · exfalso
          apply hp
          have e1 : (i : Int) = p.1 := congrArg Prod.fst he
          have e2 : (j : Int) = p.2 := congrArg Prod.snd he
          refine ⟨by omega, by omega, by omega, by omega⟩
        · exact Or.inl ⟨u1, u2, u3⟩
        · exact Or.inr u4

theorem cell_make_board (w h : Int) (i j : Nat) : cell (make_board w h) i j = 0 := by
  unfold cell make_board
  rw [List.getD_eq_getElem?_getD (List.replicate h.toNat (List.replicate w.toNat 0)) i,
    List.getElem?_replicate]
  by_cases hi : i < h.toNat
  · rw [if_pos hi, Option.getD_some, List.getD_eq_getElem?_getD, List.getElem?_replicate]
    split <;> rfl
  · rw [if_neg hi]
    rfl

theorem make_board_length (w h : Int) : (make_board w h).length = h.toNat := by
  simp [make_board]

theorem make_board_getD_length (w h : Int) (i : Nat) (hi : i < h.toNat) :
    ((make_board w h).getD i []).length = w.toNat := by
  unfold make_board
  rw [List.getD_eq_getElem?_getD, List.getElem?_replicate, if_pos hi,
    Option.getD_some, List.length_replicate]

/-- Claim C5 counterexample: `make_board` performs no dimension
validation and cannot fail.  At width 0 (a non-positive width, where the
claim demands an `InvalidDimension` failure) the spec-modelled `create`
fails, but the source's `make_board` returns the degenerate grid `[[]]`
without any error: the claim is false at `(width, height) = (0, 1)`. -/
theorem make_board_no_error_counterexample :
    createSpec 0 1 = Except.error CreateError.invalidDimension
      ∧ make_board 0 1 = [[]] := by
  constructor
  · rfl
  · rfl

/-- Claim C5 amended: `make_board(width, height)` never fails: for every
width and height it returns a grid of `max(height, 0)` rows, each of
`max(width, 0)` cells, all dead; in particular for positive dimensions it
is the all-dead height x width grid.  (No `InvalidDimension` check exists
in the code.) -/
theorem make_board_spec (w h : Int) :
    (make_board w h).length = h.toNat ∧
    (∀ i : Nat, i < h.toNat → ((make_board w h).getD i []).length = w.toNat) ∧
    (∀ i j : Nat, cell (make_board w h) i j = 0) :=
  ⟨make_board_length w h, fun i hi => make_board_getD_length w h i hi,
    fun i j => cell_make_board w h i j⟩

theorem make_board_spec_witness :
    (make_board 3 2).length = 2 ∧ ((make_board 3 2).getD 0 []).length = 3 ∧
      cell (make_board 3 2) 1 2 = 0 :=
  ⟨(make_board_spec 3 2).1, (make_board_spec 3 2).2.1 0 (by decide),
    (make_board_spec 3 2).2.2 1 2⟩

/-- Claim C6: `apply_pattern` on a grid of positive dimensions HxW yields
an HxW grid in which cell `(i, j)` is alive iff `(i, j)` occurs in the
coordinate list and is in bounds; out-of-bounds coordinates (such as
`(-1, 0)` or `(H, 0)`) are silently dropped — the function is total and
leaves every position not named in bounds dead. -/
theorem apply_pattern_spec (g : Board) (coords : List (Int × Int))
    (hH : 0 < g.length) (hW : 0 < (g.headD []).length)
    (hrect : ∀ row ∈ g, row.length = (g.headD []).length) :
    (apply_pattern g coords).length = g.length ∧
    (∀ row ∈ apply_pattern g coords, row.length = (g.headD []).length) ∧
    (∀ i j : Nat, cell (apply_pattern g coords) i j = 1 ↔
      (i < g.length ∧ j < (g.headD []).length ∧ ((i : Int), (j : Int)) ∈ coords)) := by
  have hmb1 : (make_board (((g.headD []).length : Nat) : Int) ((g.length : Nat) : Int)).length
      = g.length := by
    rw [make_board_length, Int.toNat_natCast]
  have hmb2 : ∀ i, i < g.length →
      ((make_board (((g.headD []).length : Nat) : Int) ((g.length : Nat) : Int)).getD i []).length
        = (g.headD []).length := by
    intro i hi
    rw [make_board_getD_length _ _ i (by rwa [Int.toNat_natCast]), Int.toNat_natCast]
  have hshape := apply_fold_shape g.length ((g.headD []).length) coords _ hmb1 hmb2
  have hcell := apply_fold_cell g.length ((g.headD []).length) coords _ hmb1 hmb2
  rw [apply_pattern_eq_fold]
  refine ⟨hshape.1, ?_, ?_⟩
  · intro row hrow
    obtain ⟨k, hk⟩ := List.mem_iff_getElem?.mp hrow
    have hklen : k < g.length := by
      have := List.getElem?_eq_some.mp hk
      obtain ⟨hlt, _⟩ := this
      rw [← hshape.1]
      exact hlt
    have : (List.foldl (applyStep g.length ((g.headD []).length))
        (make_board (((g.headD []).length : Nat) : Int) ((g.length : Nat) : Int)) coords).getD k []
        = row := by
      rw [List.getD_eq_getElem?_getD, hk]
      rfl
    rw [← this]
    exact hshape.2 k hklen
  · intro i j
    rw [hcell i j]
    constructor
    · rintro (h | h0)
      · exact h
      · rw [cell_make_board] at h0
        omega
    · exact Or.inl

theorem apply_pattern_spec_witness :
    0 < ([[0,0],[0,0]] : Board).length ∧
    (cell (apply_pattern [[0,0],[0,0]] [(-1,0),(2,0)]) 0 0 = 1 ↔
      (0 < ([[0,0],[0,0]] : Board).length ∧
        0 < (([[0,0],[0,0]] : Board).headD []).length ∧
        ((0 : Int), (0 : Int)) ∈ ([(-1,0),(2,0)] : List (Int × Int)))) :=
  ⟨by decide, (apply_pattern_spec [[0,0],[0,0]] [(-1,0),(2,0)] (by decide) (by decide)
    (by decide)).2.2 0 0⟩

/-! ### Decimal round trip -/

theorem digitChar_props (d : Nat) (hd : d < 10) :
    (digitChar d).isDigit = true ∧ isWS (digitChar d) = false ∧
      digitChar d ≠ ',' ∧ digitChar d ≠ '-' ∧ digitChar d ≠ '+' ∧
      digitChar d ≠ '#' ∧ (digitChar d).toNat - 48 = d := by
  interval_cases d <;> exact ⟨by decide, by decide, by decide, by decide, by decide,
    by decide, by decide⟩

theorem natDigitsF_fuel : ∀ (f₁ : Nat) (f₂ n : Nat), n < f₁ → n < f₂ →
    natDigitsF f₁ n = natDigitsF f₂ n := by
  intro f₁
  induction f₁ with
  | zero => intro f₂ n h1; omega
  | succ f ih =>
    intro f₂ n h1 h2
    cases f₂ with
    | zero => omega
    | succ f' =>
      rw [natDigitsF, natDigitsF]
      by_cases hn : n < 10
      · rw [if_pos hn, if_pos hn]
      · rw [if_neg hn, if_neg hn]
        have hdiv : n / 10 < n := Nat.div_lt_self (by omega) (by omega)
        rw [ih f' (n / 10) (by omega) (by omega)]

theorem natDigits_ge10 (n : Nat) (hn : 10 ≤ n) :
    natDigits n = natDigits (n / 10) ++ [digitChar (n % 10)] := by
  unfold natDigits
  rw [natDigitsF, if_neg (by omega)]
  have hdiv : n / 10 < n := Nat.div_lt_self (by omega) (by omega)
  rw [natDigitsF_fuel n (n / 10 + 1) (n / 10) (by omega) (by omega)]

theorem natDigits_lt10 (n : Nat) (hn : n < 10) : natDigits n = [digitChar n] := by
  unfold natDigits
  rw [natDigitsF, if_pos hn]

theorem natDigits_mem (n : Nat) : ∀ c ∈ natDigits n, ∃ d, d < 10 ∧ c = digitChar d := by
  induction n using Nat.strong_induction_on with
  | _ n ih =>
    by_cases hn : n < 10
    · rw [natDigits_lt10 n hn]
      intro c hc
      rw [List.mem_singleton] at hc
      exact ⟨n, hn, hc⟩
    · rw [natDigits_ge10 n (by omega)]
      intro c hc
      rcases List.mem_append.mp hc with h | h
      · exact ih (n / 10) (Nat.div_lt_self (by omega) (by omega)) c h
      · rw [List.mem_singleton] at h
        exact ⟨n % 10, Nat.mod_lt n (by omega), h⟩

theorem natDigits_ne_nil (n : Nat) : natDigits n ≠ [] := by
  by_cases hn : n < 10
  · rw [natDigits_lt10 n hn]; simp
  · rw [natDigits_ge10 n (by omega)]; simp

theorem natDigits_all_digit (n : Nat) : ∀ c ∈ natDigits n, c.isDigit = true := by
  intro c hc
  obtain ⟨d, hd, rfl⟩ := natDigits_mem n c hc
  exact (digitChar_props d hd).1

theorem pyDigitsCore_all_digits :
    ∀ (l : Line) (acc : Nat), (∀ c ∈ l, c.isDigit = true) →
      pyDigitsCore acc l = some (l.foldl (fun a c => a * 10 + (c.toNat - 48)) acc) := by
  intro l
  induction l with
  | nil => intro acc _; rfl
  | cons c cs ih =>
    intro acc h
    cases cs with
    | nil =>
      rw [pyDigitsCore, if_pos (h c (by simp))]
      rfl
    | cons d cs' =>
      rw [pyDigitsCore, if_pos (h c (by simp))]
      rw [ih _ (fun x hx => h x (List.mem_cons_of_mem c hx))]
      rfl

theorem pyNatCore_digits (l : Line) (hne : l ≠ []) (h : ∀ c ∈ l, c.isDigit = true) :
    pyNatCore l = some (l.foldl (fun a c => a * 10 + (c.toNat - 48)) 0) := by
  cases l with
  | nil => exact absurd rfl hne
  | cons c cs =>
    rw [pyNatCore, if_pos (h c (by simp))]
    rw [pyDigitsCore_all_digits cs (c.toNat - 48) (fun x hx => h x (List.mem_cons_of_mem c hx))]
    rw [List.foldl_cons]
    simp

theorem foldl_digits_natDigits (n : Nat) :
    ∀ acc : Nat, (natDigits n).foldl (fun a c => a * 10 + (c.toNat - 48)) acc
      = acc * 10 ^ (natDigits n).length + n := by
  induction n using Nat.strong_induction_on with
  | _ n ih =>
    intro acc
    by_cases hn : n < 10
    · rw [natDigits_lt10 n hn]
      simp [List.foldl_cons, (digitChar_props n hn).2.2.2.2.2.2]
    · rw [natDigits_ge10 n (by omega), List.foldl_append]
      rw [ih (n / 10) (Nat.div_lt_self (by omega) (by omega)) acc]
      have hmod : (digitChar (n % 10)).toNat - 48 = n % 10 :=
        (digitChar_props (n % 10) (Nat.mod_lt n (by omega))).2.2.2.2.2.2
      simp only [List.foldl_cons, List.foldl_nil, List.length_append,
        List.length_singleton, hmod]
      rw [pow_succ]
      have := Nat.div_add_mod n 10
      ring_nf
      omega

theorem pyNatCore_natDigits (n : Nat) : pyNatCore (natDigits n) = some n := by
  rw [pyNatCore_digits (natDigits n) (natDigits_ne_nil n) (natDigits_all_digit n),
    foldl_digits_natDigits n 0]
  simp

theorem dropWhile_eq_self_of_neg (p : Char → Bool) :
    ∀ l : Line, (∀ c ∈ l, p c = false) → l.dropWhile p = l := by
  intro l h
  cases l with
  | nil => rfl
  | cons c cs => rw [List.dropWhile_cons, h c (by simp)]; simp

theorem stripChars_eq_self (l : Line) (h : ∀ c ∈ l, isWS c = false) :
    stripChars l = l := by
  unfold stripChars
  rw [dropWhile_eq_self_of_neg isWS l h,
    dropWhile_eq_self_of_neg isWS l.reverse (fun c hc => h c (List.mem_reverse.mp hc)),
    List.reverse_reverse]

theorem coordLine_mem (i j : Nat) :
    ∀ c ∈ coordLine i j, c = ',' ∨ ∃ d, d < 10 ∧ c = digitChar d := by
  intro c hc
  unfold coordLine at hc
  rcases List.mem_append.mp hc with h | h
  · exact Or.inr (natDigits_mem i c h)
  · rcases List.mem_cons.mp h with h' | h'
    · exact Or.inl h'
    · exact Or.inr (natDigits_mem j c h')

theorem stripChars_coordLine (i j : Nat) : stripChars (coordLine i j) = coordLine i j := by
  apply stripChars_eq_self
  intro c hc
  rcases coordLine_mem i j c hc with rfl | ⟨d, hd, rfl⟩
  · rfl
  · exact (digitChar_props d hd).2.1

theorem coordLine_ne_nil (i j : Nat) : coordLine i j ≠ [] := by
  unfold coordLine
  intro h
  exact natDigits_ne_nil i (List.append_eq_nil.mp h).1

theorem startsWithTag_header_coordLine (i j : Nat) :
    startsWithTag headerTag (coordLine i j) = false := by
  obtain ⟨c, cs, hc⟩ := List.exists_cons_of_ne_nil (natDigits_ne_nil i)
  obtain ⟨d, hd, hcd⟩ := natDigits_mem i c (hc ▸ List.mem_cons_self c cs)
  have hne : ('#' == c) = false := by
    subst hcd
    interval_cases d <;> decide
  unfold coordLine
  rw [hc, List.cons_append]
  have hht : headerTag = '#' :: [' ', 'P', 'a', 't', 't', 'e', 'r', 'n', ':'] := rfl
  rw [hht, startsWithTag, hne, Bool.false_and]

theorem splitChar_nil (sep : Char) : splitChar sep [] = [[]] := rfl

theorem splitChar_cons (sep c : Char) (l : Line) :
    splitChar sep (c :: l) =
      if c = sep then [] :: splitChar sep l
      else match splitChar sep l with
        | h :: t => (c :: h) :: t
        | [] => [[c]] := rfl

theorem splitChar_no_sep (sep : Char) :
    ∀ l : Line, (∀ c ∈ l, c ≠ sep) → splitChar sep l = [l] := by
  intro l
  induction l with
  | nil => intro _; rfl
  | cons c cs ih =>
    intro h
    rw [splitChar_cons, if_neg (h c (by simp)), ih (fun x hx => h x (List.mem_cons_of_mem c hx))]

theorem splitChar_append (sep : Char) :
    ∀ a b : Line, (∀ c ∈ a, c ≠ sep) →
      splitChar sep (a ++ sep :: b) = a :: splitChar sep b := by
  intro a
  induction a with
  | nil =>
    intro b _
    rw [List.nil_append, splitChar_cons, if_pos rfl]
  | cons c a' ih =>
    intro b h
    rw [List.cons_append, splitChar_cons, if_neg (h c (by simp)),
      ih b (fun x hx => h x (List.mem_cons_of_mem c hx))]

theorem pyInt_natDigits (n : Nat) : pyInt (natDigits n) = some (n : Int) := by
  obtain ⟨c, cs, hc⟩ := List.exists_cons_of_ne_nil (natDigits_ne_nil n)
  obtain ⟨d, hd, hcd⟩ := natDigits_mem n c (hc ▸ List.mem_cons_self c cs)
  have hstrip : stripChars (natDigits n) = natDigits n := by
    apply stripChars_eq_self
    intro x hx
    obtain ⟨e, he, rfl⟩ := natDigits_mem n x hx
    exact (digitChar_props e he).2.1
  have hminus : ¬ (c = '-') := by
    subst hcd
    interval_cases d <;> decide
  have hplus : ¬ (c = '+') := by
    subst hcd
    interval_cases d <;> decide
  unfold pyInt
  rw [hstrip, hc]
  simp only [if_neg hminus, if_neg hplus]
  rw [← hc, pyNatCore_natDigits n]
  rfl

theorem parseCoord_coordLine (i j : Nat) :
    parseCoord (coordLine i j) = some ((i : Int), (j : Int)) := by
  have hsplit : splitChar ',' (coordLine i j) = [natDigits i, natDigits j] := by
    unfold coordLine
    rw [splitChar_append ',' (natDigits i) (natDigits j) ?hno,
      splitChar_no_sep ',' (natDigits j) ?hno2]
    case hno =>
      intro c hc
      obtain ⟨e, he, rfl⟩ := natDigits_mem i c hc
      exact (digitChar_props e he).2.2.1
    case hno2 =>
      intro c hc
      obtain ⟨e, he, rfl⟩ := natDigits_mem j c hc
      exact (digitChar_props e he).2.2.1
  unfold parseCoord
  rw [hsplit]
  simp only [pyInt_natDigits]

/-! ### `load_patterns` behaviour -/

theorem load_step_coordLine (st : LoadState) (i j : Nat) :
    load_step st (coordLine i j)
      = ⟨st.patterns, st.currentName, st.coords ++ [((i : Int), (j : Int))]⟩ := by
  unfold load_step
  rw [stripChars_coordLine]
  rw [if_neg (by simp [List.isEmpty_iff, coordLine_ne_nil i j])]
  rw [if_neg (by simp [startsWithTag_header_coordLine i j])]
  rw [parseCoord_coordLine]

theorem load_fold_coordLines (L : List (Nat × Nat)) :
    ∀ st : LoadState,
      (L.map (fun p => coordLine p.1 p.2)).foldl load_step st
        = ⟨st.patterns, st.currentName,
            st.coords ++ L.map (fun p => ((p.1 : Int), (p.2 : Int)))⟩ := by
  induction L with
  | nil => intro st; simp
  | cons p L ih =>
    intro st
    rw [List.map_cons, List.foldl_cons, load_step_coordLine, ih]
    simp

theorem self_mem_dictInsert (k : Line) (v : List (Int × Int)) :
    ∀ m : List (Line × List (Int × Int)), (k, v) ∈ dictInsert m k v := by
  intro m
  induction m with
  | nil => simp [dictInsert]
  | cons e rest ih =>
    rw [show dictInsert (e :: rest) k v
        = if e.1 = k then (k, v) :: rest else e :: dictInsert rest k v from rfl]
    split
    · exact List.mem_cons_self _ _
    · exact List.mem_cons_of_mem e ih

theorem mem_dictInsert (k : Line) (v : List (Int × Int)) :
    ∀ (m : List (Line × List (Int × Int))) (pr : Line × List (Int × Int)),
      pr ∈ dictInsert m k v → pr = (k, v) ∨ pr ∈ m := by
  intro m
  induction m with
  | nil =>
    intro pr h
    simp [dictInsert] at h
    exact Or.inl h
  | cons e rest ih =>
    intro pr h
    rw [show dictInsert (e :: rest) k v
        = if e.1 = k then (k, v) :: rest else e :: dictInsert rest k v from rfl] at h
    by_cases he : e.1 = k
    · rw [if_pos he] at h
      rcases List.mem_cons.mp h with h' | h'
      · exact Or.inl h'
      · exact Or.inr (List.mem_cons_of_mem e h')
    · rw [if_neg he] at h
      rcases List.mem_cons.mp h with h' | h'
      · exact Or.inr (h' ▸ List.mem_cons_self e rest)
      · rcases ih pr h' with h'' | h''
        · exact Or.inl h''
        · exact Or.inr (List.mem_cons_of_mem e h'')

/-- A blank line (after stripping) leaves the parser state unchanged. -/
theorem load_step_blank (st : LoadState) (raw : Line) (h : stripChars raw = []) :
    load_step st raw = st := by
  unfold load_step
  rw [h]
  rfl

/-- A header line flushes the current block under the dict guard and
starts a fresh block named by the text after the colon. -/
theorem load_step_header (st : LoadState) (raw : Line)
    (h : startsWithTag headerTag (stripChars raw) = true) :
    load_step st raw =
      ⟨if truthyName st.currentName && !st.coords.isEmpty then
          dictInsert st.patterns (st.currentName.getD []) st.coords
        else st.patterns,
        some (stripChars (afterColon (stripChars raw))), []⟩ := by
  have hne : stripChars raw ≠ [] := by
    intro he
    rw [he] at h
    exact absurd h (by decide)
  unfold load_step
  rw [if_neg (by simpa [List.isEmpty_iff] using hne), if_pos h]

/-- A non-blank, non-header line that parses as two comma-separated
integers appends that coordinate to the current block. -/
theorem load_step_coord (st : LoadState) (raw : Line) (p : Int × Int)
    (hne : stripChars raw ≠ [])
    (hh : startsWithTag headerTag (stripChars raw) = false)
    (hp : parseCoord (stripChars raw) = some p) :
    load_step st raw = ⟨st.patterns, st.currentName, st.coords ++ [p]⟩ := by
  unfold load_step
  rw [if_neg (by simpa [List.isEmpty_iff] using hne), if_neg (by simp [hh]), hp]

/-- A non-blank, non-header line that fails to parse as two
comma-separated integers is skipped: the state is unchanged. -/
theorem load_step_skip (st : LoadState) (raw : Line)
    (hne : stripChars raw ≠ [])
    (hh : startsWithTag headerTag (stripChars raw) = false)
    (hp : parseCoord (stripChars raw) = none) :
    load_step st raw = st := by
  unfold load_step
  rw [if_neg (by simpa [List.isEmpty_iff] using hne), if_neg (by simp [hh]), hp]

/-- The invariant of the parser's dict: every stored block has a
non-empty name and a non-empty coordinate list. -/
theorem load_step_inv (st : LoadState) (raw : Line)
    (h : ∀ pr ∈ st.patterns, pr.1 ≠ [] ∧ pr.2 ≠ ([] : List (Int × Int))) :
    ∀ pr ∈ (load_step st raw).patterns, pr.1 ≠ [] ∧ pr.2 ≠ ([] : List (Int × Int)) := by
  by_cases hemp : stripChars raw = []
  · rw [load_step_blank st raw hemp]
    exact h
  · by_cases hhdr : startsWithTag headerTag (stripChars raw) = true
    · rw [load_step_header st raw hhdr]
      intro pr hpr
      dsimp only at hpr
      by_cases hguard : (truthyName st.currentName && !st.coords.isEmpty) = true
      · rw [if_pos hguard] at hpr
        rcases mem_dictInsert _ _ _ pr hpr with rfl | hmem
        · obtain ⟨hg1, hg2⟩ := Bool.and_eq_true _ _ |>.mp hguard
          constructor
          · rcases hname : st.currentName with _ | nm
            · rw [hname] at hg1
              simp [truthyName] at hg1
            · rw [hname] at hg1
              simp only [truthyName] at hg1
              simp only [hname, Option.getD_some]
              simpa [List.isEmpty_iff] using hg1
          · simpa [List.isEmpty_iff] using hg2
        · exact h pr hmem
      · rw [if_neg hguard] at hpr
        exact h pr hpr
    · have hh : startsWithTag headerTag (stripChars raw) = false :=
        Bool.eq_false_iff.mpr hhdr
      cases hp : parseCoord (stripChars raw) with
      | some p =>
        rw [load_step_coord st raw p hemp hh hp]
        exact h
      | none =>
        rw [load_step_skip st raw hemp hh hp]
        exact h

theorem load_fold_inv (ls : List Line) :
    ∀ st : LoadState,
      (∀ pr ∈ st.patterns, pr.1 ≠ [] ∧ pr.2 ≠ ([] : List (Int × Int))) →
      ∀ pr ∈ (ls.foldl load_step st).patterns,
        pr.1 ≠ [] ∧ pr.2 ≠ ([] : List (Int × Int)) := by
  induction ls with
  | nil => intro st h; exact h
  | cons raw ls ih =>
    intro st h
    rw [List.foldl_cons]
    exact ih (load_step st raw) (load_step_inv st raw h)

theorem load_patterns_inv (ls : List Line) :
    ∀ pr ∈ load_patterns ls, pr.1 ≠ [] ∧ pr.2 ≠ ([] : List (Int × Int)) := by
  unfold load_patterns
  have hfold := load_fold_inv ls ⟨[], none, []⟩ (by intro pr hpr; simp at hpr)
  dsimp only
  by_cases hguard : (truthyName (ls.foldl load_step ⟨[], none, []⟩).currentName
      && !(ls.foldl load_step ⟨[], none, []⟩).coords.isEmpty) = true
  · rw [if_pos hguard]
    intro pr hpr
    rcases mem_dictInsert _ _ _ pr hpr with rfl | hmem
    · obtain ⟨hg1, hg2⟩ := Bool.and_eq_true _ _ |>.mp hguard
      constructor
      · rcases hname : (ls.foldl load_step ⟨[], none, []⟩).currentName with _ | nm
        · rw [hname] at hg1
          simp [truthyName] at hg1
        · rw [hname] at hg1
          simp only [truthyName] at hg1
          simp only [hname, Option.getD_some]
          simpa [List.isEmpty_iff] using hg1
      · simpa [List.isEmpty_iff] using hg2
    · exact hfold pr hmem
  · rw [if_neg hguard]
    exact hfold

/-- The final flush of `load_patterns`: a last in-progress block with a
truthy (non-empty) name and at least one coordinate lands in the dict. -/
theorem load_patterns_flush (ls : List Line) (nm : Line)
    (h1 : (ls.foldl load_step ⟨[], none, []⟩).currentName = some nm)
    (h2 : nm ≠ [])
    (h3 : (ls.foldl load_step ⟨[], none, []⟩).coords ≠ []) :
    (nm, (ls.foldl load_step ⟨[], none, []⟩).coords) ∈ load_patterns ls := by
  unfold load_patterns
  dsimp only
  rw [if_pos (by rw [h1]; simp [truthyName, List.isEmpty_eq_false, h2, h3]), h1]
  exact self_mem_dictInsert nm _ _

theorem mem_alive_list (b : Board) (p : Nat × Nat) :
    p ∈ alive_list b ↔
      p.1 < b.length ∧ p.2 < (b.getD p.1 []).length ∧ cell b p.1 p.2 = 1 := by
  unfold alive_list
  rw [List.mem_flatMap]
  constructor
  · rintro ⟨i, hi, hmem⟩
    rw [List.mem_filterMap] at hmem
    obtain ⟨j, hj, hjp⟩ := hmem
    rw [List.mem_range] at hi hj
    by_cases hc : cell b i j = 1
    · rw [if_pos hc] at hjp
      injection hjp with hjp
      rw [← hjp]
      exact ⟨hi, hj, hc⟩
    · rw [if_neg hc] at hjp
      exact absurd hjp (by simp)
  · rintro ⟨h1, h2, h3⟩
    exact ⟨p.1, List.mem_range.mpr h1,
      List.mem_filterMap.mpr ⟨p.2, List.mem_range.mpr h2, by rw [if_pos h3]⟩⟩

theorem alive_list_fst (b : Board) (i : Nat) (x : Nat × Nat)
    (hx : x ∈ (List.range ((b.getD i []).length)).filterMap
      (fun j => if cell b i j = 1 then some (i, j) else none)) : x.1 = i := by
  rw [List.mem_filterMap] at hx
  obtain ⟨j, _, hj⟩ := hx
  by_cases hc : cell b i j = 1
  · rw [if_pos hc] at hj
    injection hj with hj
    rw [← hj]
  · rw [if_neg hc] at hj
    exact absurd hj (by simp)

theorem alive_list_pairwise (b : Board) : (alive_list b).Pairwise scanOrderLt := by
  unfold alive_list
  rw [List.pairwise_flatMap]
  constructor
  · intro i _
    rw [List.pairwise_filterMap]
    refine (List.pairwise_lt_range _).imp ?_
    intro j j' hjj
    intro b1 hb1 b2 hb2
    by_cases hc1 : cell b i j = 1
    · rw [if_pos hc1, Option.mem_def] at hb1
      injection hb1 with hb1
      by_cases hc2 : cell b i j' = 1
      · rw [if_pos hc2, Option.mem_def] at hb2
        injection hb2 with hb2
        rw [← hb1, ← hb2]
        exact Or.inr ⟨rfl, hjj⟩
      · rw [if_neg hc2] at hb2
        exact absurd hb2 (by simp)
    · rw [if_neg hc1] at hb1
      exact absurd hb1 (by simp)
  · refine (List.pairwise_lt_range _).imp ?_
    intro i i' hii x hx y hy
    exact Or.inl (by rw [alive_list_fst b i x hx, alive_list_fst b i' y hy]; exact hii)

theorem load_step_headerSaved :
    load_step ⟨[], none, []⟩ headerSaved = ⟨[], some ("Saved".toList), []⟩ := by decide

theorem load_patterns_save (g : Board) (hne : alive_list g ≠ []) :
    load_patterns (save_pattern g)
      = [("Saved".toList, (alive_list g).map (fun p => ((p.1 : Int), (p.2 : Int))))] := by
  unfold load_patterns save_pattern
  rw [List.foldl_cons, load_step_headerSaved, load_fold_coordLines]
  dsimp only
  rw [List.nil_append]
  rw [if_pos (by simp [truthyName, List.isEmpty_eq_false, List.map_eq_nil_iff, hne])]
  rfl

theorem load_patterns_save_empty (g : Board) (he : alive_list g = []) :
    load_patterns (save_pattern g) = [] := by
  unfold save_pattern
  rw [he]
  simp only [List.map_nil]
  decide

/-- Claim C4 counterexample: for the all-dead grid `[[0]]` (no alive
cells), encoding writes only the header, and decoding that text yields an
empty mapping: no coordinate list at all is produced (the single block
has zero coordinates and is discarded), so decoding does not yield a
coordinate list whose set equals the (empty) alive-cell set. -/
theorem round_trip_counterexample : load_patterns (save_pattern [[0]]) = [] := by decide

/-- Claim C4 amended: for every grid with at least one alive cell,
encoding then decoding yields exactly the one-entry mapping under the
fixed name `"Saved"` whose coordinate list, as a set, is exactly the set
of alive cells of the grid; for a grid with no alive cells, decoding the
encoding yields an empty mapping (the header-only block is discarded). -/
theorem round_trip (g : Board) :
    (alive_list g ≠ [] →
      ∃ coords, load_patterns (save_pattern g) = [("Saved".toList, coords)] ∧
        ∀ p : Int × Int, p ∈ coords ↔
          ∃ i j : Nat, i < g.length ∧ j < (g.getD i []).length ∧ cell g i j = 1 ∧
            p = ((i : Int), (j : Int))) ∧
    (alive_list g = [] → load_patterns (save_pattern g) = []) := by
  constructor
  · intro hne
    refine ⟨(alive_list g).map (fun p => ((p.1 : Int), (p.2 : Int))),
      load_patterns_save g hne, ?_⟩
    intro p
    rw [List.mem_map]
    constructor
    · rintro ⟨q, hq, rfl⟩
      rw [mem_alive_list] at hq
      exact ⟨q.1, q.2, hq.1, hq.2.1, hq.2.2, rfl⟩
    · rintro ⟨i, j, h1, h2, h3, rfl⟩
      exact ⟨(i, j), (mem_alive_list g (i, j)).mpr ⟨h1, h2, h3⟩, rfl⟩
  · exact load_patterns_save_empty g

theorem round_trip_witness :
    alive_list [[1]] ≠ [] ∧
      (∃ coords, load_patterns (save_pattern [[1]]) = [("Saved".toList, coords)] ∧
        ∀ p : Int × Int, p ∈ coords ↔
          ∃ i j : Nat, i < ([[1]] : Board).length ∧ j < (([[1]] : Board).getD i []).length ∧
            cell [[1]] i j = 1 ∧ p = ((i : Int), (j : Int))) :=
  ⟨by decide, (round_trip [[1]]).1 (by decide)⟩

/-- Claim C7: every non-header, non-blank line failing to parse as
exactly two comma-separated integers is silently skipped (the parser
state, hence the result, is unchanged and no coordinate is contributed);
and decoding a header, one valid coordinate line and the line `"abc"`
yields exactly one pattern with exactly that one coordinate. -/
theorem malformed_line_skip :
    (∀ (st : LoadState) (raw : Line),
      stripChars raw ≠ [] →
      startsWithTag headerTag (stripChars raw) = false →
      parseCoord (stripChars raw) = none →
      load_step st raw = st) ∧
    load_patterns ["# Pattern: X".toList, "1,2".toList, "abc".toList]
      = [("X".toList, [(1, 2)])] :=
  ⟨load_step_skip, by decide⟩

theorem malformed_line_skip_witness :
    stripChars ("abc".toList) ≠ [] ∧
      load_step ⟨[], some ("X".toList), [(1, 2)]⟩ ("abc".toList)
        = ⟨[], some ("X".toList), [(1, 2)]⟩ :=
  ⟨by decide, malformed_line_skip.1 ⟨[], some ("X".toList), [(1, 2)]⟩ ("abc".toList)
    (by decide) (by decide) (by decide)⟩

/-- Claim C8 counterexample: after the input `["# Pattern:", "1,2"]` the
last in-progress block holds one successfully parsed coordinate, yet the
result is empty: the block's name (the empty string) is falsy, so the
end-of-input flush `if current_name and coords` drops it.  The claim's
unconditional "the last in-progress block (if it has at least one
coordinate) is added" is false on this input. -/
theorem block_structure_counterexample :
    ((["# Pattern:".toList, "1,2".toList] : List Line).foldl load_step
        ⟨[], none, []⟩).coords = [(1, 2)] ∧
      load_patterns ["# Pattern:".toList, "1,2".toList] = [] := by
  constructor
  · decide
  · decide

/-- Claim C8 amended: a header met while the current block has zero
parsed coordinates discards that block and starts a fresh one under the
new name; a block with zero successfully parsed coordinate lines is
never added to the result; and the last in-progress block is added at
end of input provided it has at least one coordinate and a non-empty
name (a block whose header carried an empty name is dropped even with
coordinates). -/
theorem block_structure :
    (∀ (st : LoadState) (raw : Line),
      st.coords = [] → startsWithTag headerTag (stripChars raw) = true →
      load_step st raw
        = ⟨st.patterns, some (stripChars (afterColon (stripChars raw))), []⟩) ∧
    (∀ ls : List Line, ∀ pr ∈ load_patterns ls, pr.2 ≠ ([] : List (Int × Int))) ∧
    (∀ (ls : List Line) (nm : Line),
      (ls.foldl load_step ⟨[], none, []⟩).currentName = some nm → nm ≠ [] →
      (ls.foldl load_step ⟨[], none, []⟩).coords ≠ [] →
      (nm, (ls.foldl load_step ⟨[], none, []⟩).coords) ∈ load_patterns ls) := by
  refine ⟨?_, fun ls pr h => (load_patterns_inv ls pr h).2, load_patterns_flush⟩
  intro st raw h1 h2
  rw [load_step_header st raw h2, h1]
  simp

theorem block_structure_witness :
    (⟨[], some ("A".toList), []⟩ : LoadState).coords = [] ∧
      load_step ⟨[], some ("A".toList), []⟩ ("# Pattern: B".toList)
        = ⟨[], some (stripChars (afterColon (stripChars ("# Pattern: B".toList)))), []⟩ :=
  ⟨rfl, block_structure.1 ⟨[], some ("A".toList), []⟩ ("# Pattern: B".toList) rfl (by decide)⟩

/-- Claim C9 counterexample: the encoder takes no pattern name: its
header always names `"Saved"`.  At the concrete input (grid `[[1]]`,
intended name `"X"`), the output is the `"Saved"` header plus the line
`0,0`, and contains no header naming `"X"`: the claim's "one header line
naming that given pattern" is false. -/
theorem encode_header_counterexample :
    save_pattern [[1]] = [headerFor ("Saved".toList), coordLine 0 0] ∧
      headerFor ("X".toList) ∉ save_pattern [[1]] := by
  constructor
  · decide
  · decide

/-- Claim C9 amended: the encoder, given a grid (it takes no pattern
name), produces exactly one header line naming the fixed pattern
`"Saved"`, followed by one `row,col` line per alive cell of the grid, in
row-major then column-major scan order (top-to-bottom, left-to-right). -/
theorem encode_format (b : Board) :
    save_pattern b
      = headerFor ("Saved".toList) :: (alive_list b).map (fun p => coordLine p.1 p.2) ∧
    (∀ p : Nat × Nat, p ∈ alive_list b ↔
      (p.1 < b.length ∧ p.2 < (b.getD p.1 []).length ∧ cell b p.1 p.2 = 1)) ∧
    (alive_list b).Pairwise scanOrderLt := by
  refine ⟨?_, fun p => mem_alive_list b p, alive_list_pairwise b⟩
  show headerSaved :: _ = headerFor ("Saved".toList) :: _
  rfl

theorem encode_format_witness :
    save_pattern [[0, 1]]
        = headerFor ("Saved".toList)
          :: (alive_list [[0, 1]]).map (fun p => coordLine p.1 p.2) ∧
      ((0, 1) ∈ alive_list [[0, 1]] ↔
        (0 < ([[0, 1]] : Board).length ∧ 1 < (([[0, 1]] : Board).getD 0 []).length ∧
          cell [[0, 1]] 0 1 = 1)) :=
  ⟨(encode_format [[0, 1]]).1, (encode_format [[0, 1]]).2.1 (0, 1)⟩

/-- Claim C10: the mapping produced by decode never contains the empty
string as a pattern name; concretely, a block opened by the header
`"# Pattern:"` (empty name after trimming) has its parsed coordinates
dropped: they appear in the result under no name. -/
theorem no_empty_name :
    (∀ ls : List Line, ∀ pr ∈ load_patterns ls, pr.1 ≠ []) ∧
    load_patterns
        ["# Pattern:".toList, "3,4".toList, "# Pattern: B".toList, "1,2".toList]
      = [("B".toList, [(1, 2)])] :=
  ⟨fun ls pr h => (load_patterns_inv ls pr h).1, by decide⟩

theorem no_empty_name_witness :
    ("B".toList, ([(1, 2)] : List (Int × Int))) ∈
        load_patterns ["# Pattern: B".toList, "1,2".toList] ∧
      ("B".toList, ([(1, 2)] : List (Int × Int))).1 ≠ [] :=
  ⟨by decide, no_empty_name.1 ["# Pattern: B".toList, "1,2".toList]
    ("B".toList, [(1, 2)]) (by decide)⟩
